import Mathlib

/-!
Game of Life: neighbour counting and the generation update.

A shallow embedding of `src/main.cpp` (`initialize_grid`, `count_neighbors`,
`next_generation_parallel`, `next_generation_sequential`) and the properties
proved about it.

Modelling decisions

* `vector<vector<int>>` is a list of rows of integers. Every `grid[i][j]` of the
  source is an `Option`-returning access (`Grid.read`, `Grid.write`): an index
  outside the vector makes the whole computation `none`.
* `int` arithmetic on `count` wraps to 32 bits (`wrap32`); the index sums
  `x + dx[i]`, `y + dy[i]` are exact, the callers passing indices below
  `GRID_SIZE`.
* The macro `GRID_SIZE` is the first argument `N` of the functions that test
  or loop over it (`initialize_grid` loops over `order` alone); the reference
  build has `GRID_SIZE = 50`.
* `this_thread::sleep_for` advances a clock carried next to the grid.
* `rand()` is a stream `rand : Nat → Int`: the `k`-th call returns `rand k`;
  `%` is the truncated remainder of C (`Int.tmod`).
* The OpenMP loops of `initialize_grid` and `next_generation_parallel` run
  their collapsed iterations in some order `order`: the iterations write
  pairwise distinct cells and `next_generation_parallel` only reads `grid`, so
  an execution by any number of workers is an interleaving of the workers'
  chunks, a permutation of the index space.
-/

namespace GameOfLife

/-! ## Data model -/

/-- The type `vector<vector<int>>`: a list of rows. -/
abbrev Grid := List (List Int)

/-- The macro `GRID_SIZE`. -/
def GRID_SIZE : Nat := 50

/-- Two's complement wrap-around of a 32-bit `int`. -/
def wrap32 (z : Int) : Int := (z + 2147483648) % 4294967296 - 2147483648

/-- The read `grid[i][j]` with `int` indices: `none` outside the vectors. -/
def Grid.read (grid : Grid) (i j : Int) : Option Int :=
  if 0 ≤ i ∧ 0 ≤ j then
    match grid[i.toNat]? with
    | some row => row[j.toNat]?
    | none => none
  else none

/-- The write `grid[i][j] = v` with `int` indices: `none` outside the vectors. -/
def Grid.write (grid : Grid) (i j : Int) (v : Int) : Option Grid :=
  if 0 ≤ i ∧ 0 ≤ j then
    match grid[i.toNat]? with
    | some row =>
      if j.toNat < row.length then some (grid.set i.toNat (row.set j.toNat v)) else none
    | none => none
  else none

/-- The array `dx` of `count_neighbors`. -/
def dx : List Int := [-1, -1, -1, 0, 0, 1, 1, 1]

/-- The array `dy` of `count_neighbors`. -/
def dy : List Int := [-1, 0, 1, -1, 1, -1, 0, 1]

/-! ## The functions of `main.cpp` -/

/-- The function `count_neighbors`: the loop over the eight offsets, adding
`grid[nx][ny]` to `count` when `(nx, ny)` passes the bounds test. -/
def count_neighbors (N : Nat) (grid : Grid) (x y : Int) : Option Int :=
  (List.range 8).foldlM
    (fun (count : Int) (i : Nat) =>
      let nx := x + dx.getD i 0
      let ny := y + dy.getD i 0
      if 0 ≤ nx ∧ nx < (N : Int) ∧ 0 ≤ ny ∧ ny < (N : Int) then
        match grid.read nx ny with
        | some v => some (wrap32 (count + v))
        | none => none
      else some count)
    0

/-- The body of the loops of `next_generation_parallel` for the iteration
`(i, j)`: reads `grid`, writes `new_grid[i][j]`. -/
def parallel_body (N : Nat) (grid new_grid : Grid) (i j : Nat) : Option Grid :=
  match count_neighbors N grid i j, grid.read i j with
  | some neighbors, some cell =>
    if cell = 1 ∧ (neighbors < 2 ∨ neighbors > 3) then
      new_grid.write i j 0
    else if cell = 0 ∧ neighbors = 3 then
      new_grid.write i j 1
    else some new_grid
  | _, _ => none

/-- The function `next_generation_parallel`: `new_grid` starts as a copy of
`grid`, the collapsed iterations `(i, j)` take effect in the order `order`, and
`grid.swap(new_grid)` leaves `new_grid` in `grid`. -/
def next_generation_parallel (N : Nat) (order : List (Nat × Nat)) (grid : Grid) :
    Option Grid :=
  let new_grid := grid
  order.foldlM (fun (new_grid : Grid) (ij : Nat × Nat) => parallel_body N grid new_grid ij.1 ij.2)
    new_grid

/-- The inner loop (`for j`) of `next_generation_sequential` for row `i`. -/
def sequential_row (N : Nat) (grid new_grid : Grid) (i : Nat) : Option Grid :=
  (List.range N).foldlM
    (fun (new_grid : Grid) (j : Nat) =>
      match count_neighbors N grid i j, grid.read i j with
      | some neighbors, some cell =>
        if cell = 1 ∧ (neighbors < 2 ∨ neighbors > 3) then
          new_grid.write i j 0
        else if cell = 0 ∧ neighbors = 3 then
          new_grid.write i j 1
        else some new_grid
      | _, _ => none)
    new_grid

/-- The function `next_generation_sequential` with the clock: after each row
the thread sleeps `delay` milliseconds. Returns the grid left in `grid` and
the time slept. -/
def next_generation_sequential_timed (N : Nat) (delay : Nat) (grid : Grid) :
    Option (Grid × Nat) :=
  let new_grid := grid
  (List.range N).foldlM
    (fun (st : Grid × Nat) (i : Nat) =>
      match sequential_row N grid st.1 i with
      | some new_grid => some (new_grid, st.2 + delay)
      | none => none)
    (new_grid, 0)

/-- The function `next_generation_sequential`: the grid it leaves, with the
delay of 35 ms of the source. -/
def next_generation_sequential (N : Nat) (grid : Grid) : Option Grid :=
  (next_generation_sequential_timed N 35 grid).map Prod.fst

/-- The function `initialize_grid`: the collapsed iterations `(i, j)` call
`rand()` in the order `order`; the `k`-th call returns `rand k`, and the
iteration stores `rand() % 2` (the remainder of C, truncated) in `grid[i][j]`.
The state carries the grid and the number of calls made so far. -/
def initialize_grid (order : List (Nat × Nat)) (rand : Nat → Int) (grid : Grid) :
    Option Grid :=
  (order.foldlM
    (fun (st : Grid × Nat) (ij : Nat × Nat) =>
      match st.1.write ij.1 ij.2 (Int.tmod (rand st.2) 2) with
      | some g => some (g, st.2 + 1)
      | none => none)
    (grid, 0)).map Prod.fst

/-- The iteration space of the two loops `for i`, `for j`, in row-major order. -/
def index_space (N : Nat) : List (Nat × Nat) :=
  (List.range N).flatMap (fun i => (List.range N).map (fun j => (i, j)))

/-- The simulation loop of `main` in sequential mode, `n` passes. -/
def generations_sequential (N : Nat) : Nat → Grid → Option Grid
  | 0, grid => some grid
  | n + 1, grid =>
    match next_generation_sequential N grid with
    | some g => generations_sequential N n g
    | none => none

/-- The simulation loop of `main` in parallel mode, one pass for each
execution order in `orders`. -/
def generations_parallel (N : Nat) : List (List (Nat × Nat)) → Grid → Option Grid
  | [], grid => some grid
  | order :: orders, grid =>
    match next_generation_parallel N order grid with
    | some g => generations_parallel N orders g
    | none => none

/-! ## Predicates and specification-side definitions -/

/-- The grid has `N` rows of `N` cells. -/
def WellSized (N : Nat) (g : Grid) : Prop :=
  g.length = N ∧ ∀ row ∈ g, row.length = N

/-- Every cell is 0 or 1. -/
def Binary (g : Grid) : Prop :=
  ∀ row ∈ g, ∀ c ∈ row, c = 0 ∨ c = 1

instance (N : Nat) (g : Grid) : Decidable (WellSized N g) := by
  unfold WellSized; infer_instance

instance (g : Grid) : Decidable (Binary g) := by
  unfold Binary; infer_instance

/-- The `N` x `N` grid whose cell `(i, j)` holds `f i j`. -/
def grid_of (N : Nat) (f : Nat → Nat → Int) : Grid :=
  (List.range N).map (fun i => (List.range N).map (fun j => f i j))

/-- The cell `(i, j)` of a grid, 0 outside it. -/
def Grid.cell (g : Grid) (i j : Nat) : Int :=
  (g.getD i []).getD j 0

/-- The contribution of the offset `(a, b)` to the neighbour count of `(x, y)`. -/
def neighbor_term (N : Nat) (g : Grid) (x y a b : Int) : Int :=
  if 0 ≤ x + a ∧ x + a < (N : Int) ∧ 0 ≤ y + b ∧ y + b < (N : Int) then
    g.cell (x + a).toNat (y + b).toNat
  else 0

/-- The sum of the eight contributions, in the order of the arrays `dx`, `dy`. -/
def neighbor_sum (N : Nat) (g : Grid) (x y : Int) : Int :=
  neighbor_term N g x y (-1) (-1) + neighbor_term N g x y (-1) 0
    + neighbor_term N g x y (-1) 1 + neighbor_term N g x y 0 (-1)
    + neighbor_term N g x y 0 1 + neighbor_term N g x y 1 (-1)
    + neighbor_term N g x y 1 0 + neighbor_term N g x y 1 1

/-- The value the loop body leaves in `new_grid[i][j]` when that cell held `old`. -/
def next_cell (N : Nat) (g : Grid) (i j : Nat) (old : Int) : Int :=
  if g.cell i j = 1 ∧ (wrap32 (neighbor_sum N g i j) < 2 ∨ wrap32 (neighbor_sum N g i j) > 3) then 0
  else if g.cell i j = 0 ∧ wrap32 (neighbor_sum N g i j) = 3 then 1
  else old

/-- The grid of the next generation, cell by cell. -/
def next_grid (N : Nat) (g : Grid) : Grid :=
  grid_of N (fun a b => next_cell N g a b (g.cell a b))

/-- The eight offsets `(dx[i], dy[i])`, in the order of the loop. -/
def offsets : List (Int × Int) := dx.zip dy

/-- The `N` x `N` grid whose cells all hold `v`, as `main` constructs it. -/
def constant_grid (N : Nat) (v : Int) : Grid := List.replicate N (List.replicate N v)

/-- The `N` x `N` grid whose live cells are exactly those of `cells` inside it. -/
def live_grid (N : Nat) (cells : List (Nat × Nat)) : Grid :=
  grid_of N (fun a b => if (a, b) ∈ cells then 1 else 0)

/-- The cells counted by the specification: in the grid, adjacent to `(x, y)`,
different from it, and alive. -/
def live_adjacent_cells (N : Nat) (g : Grid) (x y : Int) : Finset (Int × Int) :=
  ((Finset.Ico (0 : Int) N) ×ˢ (Finset.Ico (0 : Int) N)).filter
    (fun p => |p.1 - x| ≤ 1 ∧ |p.2 - y| ≤ 1 ∧ p ≠ (x, y) ∧ g.read p.1 p.2 = some 1)

/-- A `GRID_SIZE` x `GRID_SIZE` grid with a blinker in row 2, the input of the
worked examples. -/
def example_grid : Grid := live_grid GRID_SIZE [(2, 1), (2, 2), (2, 3)]

/-- The grid with rows and columns swapped: its cell `(a, b)` is the cell
`(b, a)` of `g`. -/
def transpose (N : Nat) (g : Grid) : Grid :=
  grid_of N (fun a b => g.cell b a)

/-- The cells of the grid adjacent to `(x, y)`: row and column each differ by
at most 1, and the cell is not `(x, y)` itself. -/
def adjacent_cells (N : Nat) (x y : Int) : Finset (Int × Int) :=
  ((Finset.Ico (0 : Int) N) ×ˢ (Finset.Ico (0 : Int) N)).filter
    (fun p => |p.1 - x| ≤ 1 ∧ |p.2 - y| ≤ 1 ∧ p ≠ (x, y))

/-- The sum of the values stored in the cells of the grid adjacent to `(x, y)`. -/
def adjacent_sum (N : Nat) (g : Grid) (x y : Int) : Int :=
  Finset.sum (adjacent_cells N x y) (fun p => (g.read p.1 p.2).getD 0)

/-- The contents left by the iterations `l`, the first of which makes call
number `k`, in a grid that held `f`. -/
def init_fun (rand : Nat → Int) : List (Nat × Nat) → Nat → (Nat → Nat → Int) → Nat → Nat → Int
  | [], _, f => f
  | ij :: t, k, f =>
    init_fun rand t (k + 1)
      (fun a b => if a = ij.1 ∧ b = ij.2 then Int.tmod (rand k) 2 else f a b)

/-! ## Lemmas on grids -/

theorem wrap32_of_range {z : Int} (h1 : -2147483648 ≤ z) (h2 : z < 2147483648) : wrap32 z = z := by
  unfold wrap32; omega

theorem wrap32_range (z : Int) : -2147483648 ≤ wrap32 z ∧ wrap32 z < 2147483648 := by
  unfold wrap32; omega

theorem wrap32_wrap32_add (a b : Int) : wrap32 (wrap32 a + b) = wrap32 (a + b) := by
  unfold wrap32; omega

theorem wellSized_grid_of (N : Nat) (f : Nat → Nat → Int) : WellSized N (grid_of N f) := by
  simp [WellSized, grid_of]

theorem read_grid_of (N : Nat) (f : Nat → Nat → Int) {i j : Nat} (hi : i < N) (hj : j < N) :
    (grid_of N f).read i j = some (f i j) := by
  simp [Grid.read, grid_of, List.getElem?_range, hi, hj]

theorem cell_grid_of (N : Nat) (f : Nat → Nat → Int) {i j : Nat} (hi : i < N) (hj : j < N) :
    (grid_of N f).cell i j = f i j := by
  simp [Grid.cell, grid_of, List.getD, List.getElem?_range, hi, hj]

theorem grid_of_congr {N : Nat} {f f' : Nat → Nat → Int}
    (h : ∀ a, a < N → ∀ b, b < N → f a b = f' a b) : grid_of N f = grid_of N f' := by
  unfold grid_of
  apply List.map_congr_left
  intro a ha
  apply List.map_congr_left
  intro b hb
  exact h a (List.mem_range.mp ha) b (List.mem_range.mp hb)

theorem grid_of_cell {N : Nat} {g : Grid} (hg : WellSized N g) : grid_of N g.cell = g := by
  obtain ⟨hl, hr⟩ := hg
  apply List.ext_getElem
  · simp [grid_of, hl]
  · intro i h1 h2
    have hrow : (g[i]).length = N := hr _ (List.getElem_mem _)
    apply List.ext_getElem
    · simp [grid_of, hrow]
    · intro j h3 h4
      simp [grid_of, Grid.cell, List.getD, List.getElem?_eq_getElem h2, List.getElem?_eq_getElem h4]

theorem write_grid_of (N : Nat) (f : Nat → Nat → Int) {i j : Nat} (hi : i < N) (hj : j < N)
    (v : Int) :
    (grid_of N f).write i j v
      = some (grid_of N (fun a b => if a = i ∧ b = j then v else f a b)) := by
  have hrow : (grid_of N f)[i]? = some ((List.range N).map (fun b => f i b)) := by
    simp [grid_of, List.getElem?_range, hi]
  simp only [Grid.write, Int.toNat_ofNat, hrow, Int.ofNat_nonneg, and_self, if_true,
    List.length_map, List.length_range, hj]
  congr 1
  apply List.ext_getElem
  · simp [grid_of]
  · intro a h1 h2
    have ha : a < N := by simpa [grid_of] using h2
    apply List.ext_getElem
    · simp [grid_of, List.getElem_set]
      split <;> simp
    · intro b h3 h4
      have hb : b < N := by simpa [grid_of] using h4
      by_cases hai : i = a
      · subst hai
        by_cases hbj : j = b
        · subst hbj
          simp [grid_of, List.getElem_set]
        · have : ¬ (b = j) := fun h => hbj h.symm
          simp [grid_of, List.getElem_set, hbj, this]
      · have : ¬ (a = i) := fun h => hai h.symm
        simp [grid_of, List.getElem_set, hai, this]

/-! ## The loops of `main.cpp` in closed form -/

theorem read_of_wellSized {N : Nat} {g : Grid} (hg : WellSized N g) {i j : Int}
    (hi0 : 0 ≤ i) (hi : i < N) (hj0 : 0 ≤ j) (hj : j < N) :
    g.read i j = some (g.cell i.toNat j.toNat) := by
  have h := read_grid_of N g.cell (i := i.toNat) (j := j.toNat) (by omega) (by omega)
  rw [grid_of_cell hg, Int.toNat_of_nonneg hi0, Int.toNat_of_nonneg hj0] at h
  exact h

theorem count_step {N : Nat} {g : Grid} (hg : WellSized N g) (x y a b count : Int)
    (hc1 : -2147483648 ≤ count) (hc2 : count < 2147483648) :
    (if 0 ≤ x + a ∧ x + a < (N : Int) ∧ 0 ≤ y + b ∧ y + b < (N : Int) then
        match g.read (x + a) (y + b) with
        | some v => some (wrap32 (count + v))
        | none => none
      else some count) = some (wrap32 (count + neighbor_term N g x y a b)) := by
  unfold neighbor_term
  split
  · rename_i h
    rw [read_of_wellSized hg h.1 h.2.1 h.2.2.1 h.2.2.2]
  · simp [wrap32_of_range hc1 hc2]

theorem count_neighbors_eq {N : Nat} {g : Grid} (hg : WellSized N g) (x y : Int) :
    count_neighbors N g x y = some (wrap32 (neighbor_sum N g x y)) := by
  have hr : List.range 8 = [0, 1, 2, 3, 4, 5, 6, 7] := by decide
  unfold count_neighbors
  rw [hr]
  simp only [List.foldlM_cons, List.foldlM_nil, dx, dy, List.getD_cons_zero, List.getD_cons_succ]
  rw [count_step hg x y (-1) (-1) 0 (by decide) (by decide)]
  simp only [Option.pure_def, Option.bind_eq_bind, Option.some_bind]
  rw [count_step hg x y (-1) 0 _ (wrap32_range _).1 (wrap32_range _).2]
  simp only [Option.some_bind]
  rw [count_step hg x y (-1) 1 _ (wrap32_range _).1 (wrap32_range _).2]
  simp only [Option.some_bind]
  rw [count_step hg x y 0 (-1) _ (wrap32_range _).1 (wrap32_range _).2]
  simp only [Option.some_bind]
  rw [count_step hg x y 0 1 _ (wrap32_range _).1 (wrap32_range _).2]
  simp only [Option.some_bind]
  rw [count_step hg x y 1 (-1) _ (wrap32_range _).1 (wrap32_range _).2]
  simp only [Option.some_bind]
  rw [count_step hg x y 1 0 _ (wrap32_range _).1 (wrap32_range _).2]
  simp only [Option.some_bind]
  rw [count_step hg x y 1 1 _ (wrap32_range _).1 (wrap32_range _).2]
  simp only [Option.some_bind, wrap32_wrap32_add, zero_add, neighbor_sum]

theorem next_cell_idem (N : Nat) (g : Grid) (i j : Nat) (old : Int) :
    next_cell N g i j (next_cell N g i j old) = next_cell N g i j old := by
  unfold next_cell
  split_ifs <;> rfl

theorem parallel_body_grid_of {N : Nat} {g : Grid} (hg : WellSized N g)
    (f : Nat → Nat → Int) {i j : Nat} (hi : i < N) (hj : j < N) :
    parallel_body N g (grid_of N f) i j
      = some (grid_of N (fun a b => if a = i ∧ b = j then next_cell N g i j (f i j) else f a b)) := by
  have hread : g.read i j = some (g.cell i j) := by
    have := read_of_wellSized hg (i := (i : Int)) (j := (j : Int)) (by omega) (by omega)
      (by omega) (by omega)
    simpa using this
  unfold parallel_body
  rw [count_neighbors_eq hg, hread]
  simp only [next_cell]
  split_ifs with h1 h2
  · exact write_grid_of N f hi hj 0
  · exact write_grid_of N f hi hj 1
  · congr 1
    apply grid_of_congr
    intro a _ b _
    split_ifs with h
    · rw [h.1, h.2]
    · rfl

theorem foldlM_parallel_body {N : Nat} {g : Grid} (hg : WellSized N g)
    (l : List (Nat × Nat)) (hl : ∀ p ∈ l, p.1 < N ∧ p.2 < N) (f : Nat → Nat → Int) :
    l.foldlM (fun (new_grid : Grid) (ij : Nat × Nat) => parallel_body N g new_grid ij.1 ij.2)
        (grid_of N f)
      = some (grid_of N (fun a b => if (a, b) ∈ l then next_cell N g a b (f a b) else f a b)) := by
  induction l generalizing f with
  | nil => simp
  | cons p t ih =>
    obtain ⟨i, j⟩ := p
    have hij := hl (i, j) (List.mem_cons_self _ _)
    rw [List.foldlM_cons, parallel_body_grid_of hg f hij.1 hij.2]
    simp only [Option.bind_eq_bind, Option.some_bind]
    rw [ih (fun q hq => hl q (List.mem_cons_of_mem _ hq))]
    congr 1
    apply grid_of_congr
    intro a _ b _
    by_cases hab : a = i ∧ b = j
    · obtain ⟨rfl, rfl⟩ := hab
      by_cases ht : (a, b) ∈ t
      · simp [ht, next_cell_idem]
      · simp [ht]
    · have hne : ¬ ((a, b) = (i, j)) := by
        intro h; exact hab (by simpa using h)
      simp only [hab, if_false, List.mem_cons, hne, false_or]

theorem mem_index_space {N a b : Nat} : (a, b) ∈ index_space N ↔ a < N ∧ b < N := by
  simp [index_space, List.mem_flatMap]

theorem next_generation_parallel_eq {N : Nat} {g : Grid} (hg : WellSized N g)
    {order : List (Nat × Nat)} (hin : ∀ p ∈ order, p.1 < N ∧ p.2 < N)
    (hall : ∀ p ∈ index_space N, p ∈ order) :
    next_generation_parallel N order g = some (next_grid N g) := by
  unfold next_generation_parallel
  have h := foldlM_parallel_body hg order hin g.cell
  rw [grid_of_cell hg] at h
  simp only [h, next_grid]
  congr 1
  apply grid_of_congr
  intro a ha b hb
  simp [hall (a, b) (mem_index_space.mpr ⟨ha, hb⟩)]

theorem foldlM_map_option {α β γ : Type} (f : γ → β → Option γ) (m : α → β) (l : List α) (s : γ) :
    (l.map m).foldlM f s = l.foldlM (fun s a => f s (m a)) s := by
  induction l generalizing s with
  | nil => rfl
  | cons a t ih =>
    simp only [List.map_cons, List.foldlM_cons]
    cases f s (m a) with
    | none => rfl
    | some s1 => simp [ih]

theorem sequential_row_eq (N : Nat) (g ng : Grid) (i : Nat) :
    sequential_row N g ng i
      = ((List.range N).map (fun j => (i, j))).foldlM
          (fun (new_grid : Grid) (ij : Nat × Nat) => parallel_body N g new_grid ij.1 ij.2) ng := by
  rw [foldlM_map_option]
  rfl

theorem timed_loop_eq (N delay : Nat) (g : Grid) (rows : List Nat) (ng : Grid) (t : Nat) :
    rows.foldlM
        (fun (st : Grid × Nat) (i : Nat) =>
          match sequential_row N g st.1 i with
          | some new_grid => some (new_grid, st.2 + delay)
          | none => none)
        (ng, t)
      = ((rows.flatMap (fun i => (List.range N).map (fun j => (i, j)))).foldlM
          (fun (new_grid : Grid) (ij : Nat × Nat) => parallel_body N g new_grid ij.1 ij.2) ng).map
          (fun r => (r, t + delay * rows.length)) := by
  induction rows generalizing ng t with
  | nil => simp
  | cons i rest ih =>
    rw [List.foldlM_cons, List.flatMap_cons, List.foldlM_append, ← sequential_row_eq]
    cases hrow : sequential_row N g ng i with
    | none => simp
    | some r =>
      simp only [Option.bind_eq_bind, Option.some_bind]
      rw [ih]
      have : t + delay + delay * rest.length = t + delay * (rest.length + 1) := by ring
      simp [this]

theorem next_generation_sequential_timed_eq (N delay : Nat) (g : Grid) :
    next_generation_sequential_timed N delay g
      = (next_generation_parallel N (index_space N) g).map (fun r => (r, delay * N)) := by
  unfold next_generation_sequential_timed next_generation_parallel index_space
  simp only [timed_loop_eq]
  simp

theorem next_generation_sequential_eq_parallel (N : Nat) (g : Grid) :
    next_generation_sequential N g = next_generation_parallel N (index_space N) g := by
  unfold next_generation_sequential
  rw [next_generation_sequential_timed_eq]
  cases next_generation_parallel N (index_space N) g <;> rfl

theorem next_generation_sequential_eq {N : Nat} {g : Grid} (hg : WellSized N g) :
    next_generation_sequential N g = some (next_grid N g) := by
  rw [next_generation_sequential_eq_parallel]
  exact next_generation_parallel_eq hg (fun p hp => mem_index_space.mp hp) (fun p hp => hp)

/-! ## Grids of zeros and ones -/

theorem cell_binary {g : Grid} (hb : Binary g) (i j : Nat) : g.cell i j = 0 ∨ g.cell i j = 1 := by
  unfold Grid.cell
  by_cases hi : i < g.length
  · by_cases hj : j < (g[i]).length
    · have := hb _ (List.getElem_mem hi) _ (List.getElem_mem hj)
      simpa [List.getD, List.getElem?_eq_getElem hi, List.getElem?_eq_getElem hj] using this
    · simp [List.getD, List.getElem?_eq_getElem hi, List.getElem?_eq_none (Nat.le_of_not_lt hj)]
  · simp [List.getD, List.getElem?_eq_none (Nat.le_of_not_lt hi)]

theorem neighbor_term_binary {g : Grid} (hb : Binary g) (N : Nat) (x y a b : Int) :
    neighbor_term N g x y a b = 0 ∨ neighbor_term N g x y a b = 1 := by
  unfold neighbor_term
  split
  · exact cell_binary hb _ _
  · exact Or.inl rfl

theorem neighbor_sum_binary {g : Grid} (hb : Binary g) (N : Nat) (x y : Int) :
    0 ≤ neighbor_sum N g x y ∧ neighbor_sum N g x y ≤ 8 := by
  unfold neighbor_sum
  have h1 := neighbor_term_binary hb N x y (-1) (-1)
  have h2 := neighbor_term_binary hb N x y (-1) 0
  have h3 := neighbor_term_binary hb N x y (-1) 1
  have h4 := neighbor_term_binary hb N x y 0 (-1)
  have h5 := neighbor_term_binary hb N x y 0 1
  have h6 := neighbor_term_binary hb N x y 1 (-1)
  have h7 := neighbor_term_binary hb N x y 1 0
  have h8 := neighbor_term_binary hb N x y 1 1
  omega

theorem count_neighbors_binary {N : Nat} {g : Grid} (hg : WellSized N g) (hb : Binary g)
    (x y : Int) : count_neighbors N g x y = some (neighbor_sum N g x y) := by
  have h := neighbor_sum_binary hb N x y
  rw [count_neighbors_eq hg, wrap32_of_range (by omega) (by omega)]

theorem read_next_grid (N : Nat) (g : Grid) {i j : Nat} (hi : i < N) (hj : j < N) :
    (next_grid N g).read i j = some (next_cell N g i j (g.cell i j)) :=
  read_grid_of N _ hi hj

theorem read_nat_of_wellSized {N : Nat} {g : Grid} (hg : WellSized N g) {i j : Nat}
    (hi : i < N) (hj : j < N) : g.read i j = some (g.cell i j) := by
  have := read_of_wellSized hg (i := (i : Int)) (j := (j : Int)) (by omega) (by omega)
    (by omega) (by omega)
  simpa using this

/-! ## The eight offsets and grids given by their live cells -/

theorem offsets_eq :
    offsets = [(-1, -1), (-1, 0), (-1, 1), (0, -1), (0, 1), (1, -1), (1, 0), (1, 1)] := by
  decide

theorem mem_offsets (u v : Int) :
    (u, v) ∈ offsets ↔ -1 ≤ u ∧ u ≤ 1 ∧ -1 ≤ v ∧ v ≤ 1 ∧ ¬ (u = 0 ∧ v = 0) := by
  simp only [offsets_eq, List.mem_cons, Prod.mk.injEq, List.mem_singleton, List.not_mem_nil,
    or_false]
  omega

theorem nodup_offsets : offsets.Nodup := by decide

theorem neighbor_sum_eq_sum (N : Nat) (g : Grid) (x y : Int) :
    neighbor_sum N g x y = (offsets.map (fun d => neighbor_term N g x y d.1 d.2)).sum := by
  simp only [offsets_eq, neighbor_sum, List.map_cons, List.map_nil, List.sum_cons, List.sum_nil]
  omega

theorem sum_indicator_of_nodup (l : List (Int × Int)) (hl : l.Nodup) (u v : Int) :
    (l.map (fun d => if d.1 = u ∧ d.2 = v then (1 : Int) else 0)).sum
      = if (u, v) ∈ l then 1 else 0 := by
  induction l with
  | nil => simp
  | cons d t ih =>
    obtain ⟨hd, ht⟩ := List.nodup_cons.mp hl
    obtain ⟨d1, d2⟩ := d
    rw [List.map_cons, List.sum_cons, ih ht]
    by_cases h : d1 = u ∧ d2 = v
    · obtain ⟨rfl, rfl⟩ := h
      simp [hd]
    · have hne : ¬ ((u, v) = (d1, d2)) := by
        intro e
        simp only [Prod.mk.injEq] at e
        exact h ⟨e.1.symm, e.2.symm⟩
      simp only [h, if_false, zero_add, List.mem_cons, hne, false_or]

theorem constant_grid_eq (N : Nat) (v : Int) : constant_grid N v = grid_of N (fun _ _ => v) := by
  simp [constant_grid, grid_of]

theorem neighbor_term_grid_of (N : Nat) (f : Nat → Nat → Int) (x y a b : Int) :
    neighbor_term N (grid_of N f) x y a b
      = if 0 ≤ x + a ∧ x + a < (N : Int) ∧ 0 ≤ y + b ∧ y + b < (N : Int) then
          f (x + a).toNat (y + b).toNat
        else 0 := by
  unfold neighbor_term
  split
  · rename_i h
    rw [cell_grid_of N f (by omega) (by omega)]
  · rfl

theorem neighbor_term_live_cons (N : Nat) (r c : Nat) (t : List (Nat × Nat)) (hr : r < N)
    (hc : c < N) (hp : (r, c) ∉ t) (x y a b : Int) :
    neighbor_term N (live_grid N ((r, c) :: t)) x y a b
      = (if a = (r : Int) - x ∧ b = (c : Int) - y then 1 else 0)
        + neighbor_term N (live_grid N t) x y a b := by
  simp only [live_grid, neighbor_term_grid_of]
  by_cases h : a = (r : Int) - x ∧ b = (c : Int) - y
  · obtain ⟨rfl, rfl⟩ := h
    have hx : x + ((r : Int) - x) = r := by ring
    have hy : y + ((c : Int) - y) = c := by ring
    simp [hx, hy, hr, hc, hp]
  · simp only [h, if_false, zero_add]
    split_ifs with hg h1 h2 h2
    · rfl
    · exfalso
      rcases List.mem_cons.mp h1 with e | e
      · simp only [Prod.mk.injEq] at e
        exact h ⟨by omega, by omega⟩
      · exact h2 e
    · exact absurd (List.mem_cons_of_mem _ h2) h1
    · rfl
    · rfl

theorem neighbor_sum_live_grid (N : Nat) (cells : List (Nat × Nat)) (hn : cells.Nodup)
    (hin : ∀ p ∈ cells, p.1 < N ∧ p.2 < N) (x y : Int) :
    neighbor_sum N (live_grid N cells) x y
      = ((cells.countP (fun p => ((p.1 : Int) - x, (p.2 : Int) - y) ∈ offsets) : Nat) : Int) := by
  induction cells with
  | nil =>
    simp [neighbor_sum, live_grid, neighbor_term_grid_of]
  | cons p t ih =>
    obtain ⟨r, c⟩ := p
    obtain ⟨hp, ht⟩ := List.nodup_cons.mp hn
    have hrc := hin (r, c) (List.mem_cons_self _ _)
    have ih1 := ih ht (fun q hq => hin q (List.mem_cons_of_mem _ hq))
    rw [neighbor_sum_eq_sum] at ih1 ⊢
    simp only [neighbor_term_live_cons N r c t hrc.1 hrc.2 hp]
    rw [List.sum_map_add, ih1, sum_indicator_of_nodup _ nodup_offsets, List.countP_cons]
    by_cases hm : ((r : Int) - x, (c : Int) - y) ∈ offsets
    · simp [hm]; ring
    · simp [hm]

theorem next_grid_live_grid (N : Nat) (cells cells' : List (Nat × Nat))
    (h : ∀ a b : Nat, a < N → b < N →
      next_cell N (live_grid N cells) a b (if (a, b) ∈ cells then 1 else 0)
        = if (a, b) ∈ cells' then 1 else 0) :
    next_grid N (live_grid N cells) = live_grid N cells' := by
  unfold next_grid
  conv_rhs => rw [live_grid]
  apply grid_of_congr
  intro a ha b hb
  have hcell : (live_grid N cells).cell a b = if (a, b) ∈ cells then 1 else 0 :=
    cell_grid_of N _ ha hb
  rw [hcell]
  exact h a b ha hb

theorem next_grid_row_blinker (N r c : Nat) (hr1 : 1 ≤ r) (hr2 : r + 1 < N) (hc1 : 1 ≤ c)
    (hc2 : c + 1 < N) :
    next_grid N (live_grid N [(r, c - 1), (r, c), (r, c + 1)])
      = live_grid N [(r - 1, c), (r, c), (r + 1, c)] := by
  apply next_grid_live_grid
  intro a b ha hb
  have hcell : (live_grid N [(r, c - 1), (r, c), (r, c + 1)]).cell a b
      = if (a, b) ∈ [(r, c - 1), (r, c), (r, c + 1)] then 1 else 0 := cell_grid_of N _ ha hb
  have hsum := neighbor_sum_live_grid N [(r, c - 1), (r, c), (r, c + 1)]
    (by simp; omega) (by simp; omega) a b
  unfold next_cell
  rw [hcell, hsum]
  simp only [List.countP_cons, List.countP_nil, decide_eq_true_eq, mem_offsets, List.mem_cons,
    Prod.mk.injEq, List.mem_singleton, List.not_mem_nil, or_false]
  push_cast
  simp only [wrap32]
  split_ifs <;> omega

theorem next_grid_col_blinker (N r c : Nat) (hr1 : 1 ≤ r) (hr2 : r + 1 < N) (hc1 : 1 ≤ c)
    (hc2 : c + 1 < N) :
    next_grid N (live_grid N [(r - 1, c), (r, c), (r + 1, c)])
      = live_grid N [(r, c - 1), (r, c), (r, c + 1)] := by
  apply next_grid_live_grid
  intro a b ha hb
  have hcell : (live_grid N [(r - 1, c), (r, c), (r + 1, c)]).cell a b
      = if (a, b) ∈ [(r - 1, c), (r, c), (r + 1, c)] then 1 else 0 := cell_grid_of N _ ha hb
  have hsum := neighbor_sum_live_grid N [(r - 1, c), (r, c), (r + 1, c)]
    (by simp; omega) (by simp; omega) a b
  have hle := List.countP_le_length (fun p : Nat × Nat =>
    decide ((((p.1 : Int)) - a, (p.2 : Int) - b) ∈ offsets)) (l := [(r - 1, c), (r, c), (r + 1, c)])
  simp only [List.length_cons, List.length_nil] at hle
  unfold next_cell
  rw [hcell, hsum, wrap32_of_range (by omega) (by omega)]
  clear hle hsum hcell
  simp only [List.countP_cons, List.countP_nil, decide_eq_true_eq, mem_offsets, List.mem_cons,
    Prod.mk.injEq, List.mem_singleton, List.not_mem_nil, or_false]
  push_cast
  split_ifs <;> omega

/-! ## The neighbour count as a number of cells -/

theorem sum_map_indicator {α : Type} (l : List α) (Q : α → Prop) [DecidablePred Q] :
    (l.map (fun d => if Q d then (1 : Int) else 0)).sum = ((l.countP (fun d => decide (Q d)) : Nat) : Int) := by
  induction l with
  | nil => simp
  | cons d t ih =>
    rw [List.map_cons, List.sum_cons, ih, List.countP_cons]
    by_cases h : Q d
    · simp [h]; ring
    · simp [h]

theorem neighbor_term_binary_eq {N : Nat} {g : Grid} (hg : WellSized N g) (hb : Binary g)
    (x y a b : Int) :
    neighbor_term N g x y a b
      = if 0 ≤ x + a ∧ x + a < (N : Int) ∧ 0 ≤ y + b ∧ y + b < (N : Int)
            ∧ g.read (x + a) (y + b) = some 1 then 1 else 0 := by
  unfold neighbor_term
  by_cases h : 0 ≤ x + a ∧ x + a < (N : Int) ∧ 0 ≤ y + b ∧ y + b < (N : Int)
  · have hr := read_of_wellSized hg h.1 h.2.1 h.2.2.1 h.2.2.2
    rw [if_pos h, hr]
    rcases cell_binary hb (x + a).toNat (y + b).toNat with h0 | h1
    · simp [h0, h]
    · simp [h1, h]
  · rw [if_neg h, if_neg (fun hh => h ⟨hh.1, hh.2.1, hh.2.2.1, hh.2.2.2.1⟩)]

theorem live_adjacent_cells_eq (N : Nat) (g : Grid) (x y : Int) :
    live_adjacent_cells N g x y
      = ((offsets.filter (fun d => decide (0 ≤ x + d.1 ∧ x + d.1 < (N : Int) ∧ 0 ≤ y + d.2
            ∧ y + d.2 < (N : Int) ∧ g.read (x + d.1) (y + d.2) = some 1))).map
          (fun d => (x + d.1, y + d.2))).toFinset := by
  ext ⟨a, b⟩
  simp only [live_adjacent_cells, Finset.mem_filter, Finset.mem_product, Finset.mem_Ico,
    List.mem_toFinset, List.mem_map, List.mem_filter, decide_eq_true_eq, Prod.mk.injEq,
    Prod.exists, abs_le, ne_eq]
  constructor
  · rintro ⟨⟨⟨h1, h2⟩, h3, h4⟩, h5, h6, h7, h8⟩
    refine ⟨a - x, b - y, ⟨(mem_offsets _ _).mpr ?_, ?_⟩, by ring, by ring⟩
    · refine ⟨by omega, by omega, by omega, by omega, ?_⟩
      intro h
      exact h7 ⟨by omega, by omega⟩
    · have hx : x + (a - x) = a := by ring
      have hy : y + (b - y) = b := by ring
      rw [hx, hy]
      exact ⟨h1, h2, h3, h4, h8⟩
  · rintro ⟨u, v, ⟨hm, h1, h2, h3, h4, h5⟩, rfl, rfl⟩
    have := (mem_offsets _ _).mp hm
    refine ⟨⟨⟨h1, h2⟩, h3, h4⟩, ⟨by omega, by omega⟩, ⟨by omega, by omega⟩, ?_, h5⟩
    intro h
    omega

theorem card_live_adjacent_cells {N : Nat} {g : Grid} (hg : WellSized N g) (hb : Binary g)
    (x y : Int) :
    ((live_adjacent_cells N g x y).card : Int) = neighbor_sum N g x y := by
  rw [live_adjacent_cells_eq, List.toFinset_card_of_nodup, List.length_map,
    ← List.countP_eq_length_filter, neighbor_sum_eq_sum]
  · rw [← sum_map_indicator]
    congr 1
    apply List.map_congr_left
    intro d _
    rw [neighbor_term_binary_eq hg hb]
  · apply List.Nodup.map
    · intro d d' h
      simp only [Prod.mk.injEq] at h
      ext <;> omega
    · exact nodup_offsets.filter _

/-! ## Border cells -/

theorem neighbor_sum_constant_one (N : Nat) (hN : 2 ≤ N) (x y : Nat) (hx : x < N) (hy : y < N) :
    neighbor_sum N (constant_grid N 1) x y
      = if (x = 0 ∨ x = N - 1) ∧ (y = 0 ∨ y = N - 1) then 3
        else if x = 0 ∨ x = N - 1 ∨ y = 0 ∨ y = N - 1 then 5 else 8 := by
  simp only [neighbor_sum, constant_grid_eq, neighbor_term_grid_of]
  have hx3 : x = 0 ∨ (1 ≤ x ∧ x + 1 < N) ∨ x + 1 = N := by omega
  have hy3 : y = 0 ∨ (1 ≤ y ∧ y + 1 < N) ∨ y + 1 = N := by omega
  rcases hx3 with h1 | h1 | h1 <;> rcases hy3 with h2 | h2 | h2 <;> omega

theorem neighbor_term_binary_guard {g : Grid} (hb : Binary g) (N : Nat) (x y a b : Int) :
    0 ≤ neighbor_term N g x y a b ∧ neighbor_term N g x y a b ≤ 1 ∧
      (¬ (0 ≤ x + a ∧ x + a < (N : Int) ∧ 0 ≤ y + b ∧ y + b < (N : Int)) →
        neighbor_term N g x y a b = 0) := by
  refine ⟨?_, ?_, ?_⟩
  · rcases neighbor_term_binary hb N x y a b with h | h <;> omega
  · rcases neighbor_term_binary hb N x y a b with h | h <;> omega
  · intro h
    unfold neighbor_term
    rw [if_neg h]

theorem neighbor_sum_border {g : Grid} (hb : Binary g) (N : Nat) (x y : Nat) (hx : x < N)
    (hy : y < N) :
    ((x = 0 ∨ x = N - 1) ∧ (y = 0 ∨ y = N - 1) → neighbor_sum N g x y ≤ 3) ∧
      (x = 0 ∨ x = N - 1 ∨ y = 0 ∨ y = N - 1 → neighbor_sum N g x y ≤ 5) := by
  unfold neighbor_sum
  have h1 := neighbor_term_binary_guard hb N x y (-1) (-1)
  have h2 := neighbor_term_binary_guard hb N x y (-1) 0
  have h3 := neighbor_term_binary_guard hb N x y (-1) 1
  have h4 := neighbor_term_binary_guard hb N x y 0 (-1)
  have h5 := neighbor_term_binary_guard hb N x y 0 1
  have h6 := neighbor_term_binary_guard hb N x y 1 (-1)
  have h7 := neighbor_term_binary_guard hb N x y 1 0
  have h8 := neighbor_term_binary_guard hb N x y 1 1
  constructor
  · rintro ⟨hx' | hx', hy' | hy'⟩ <;> omega
  · rintro (hx' | hx' | hy' | hy') <;> omega

/-! ## Invariants and particular grids -/

theorem binary_grid_of (N : Nat) (f : Nat → Nat → Int)
    (h : ∀ a b, a < N → b < N → f a b = 0 ∨ f a b = 1) : Binary (grid_of N f) := by
  intro row hrow v hv
  simp only [grid_of, List.mem_map, List.mem_range] at hrow
  obtain ⟨a, ha, rfl⟩ := hrow
  simp only [List.mem_map, List.mem_range] at hv
  obtain ⟨b, hb, rfl⟩ := hv
  exact h a b ha hb

theorem binary_live_grid (N : Nat) (cells : List (Nat × Nat)) : Binary (live_grid N cells) := by
  apply binary_grid_of
  intro a b _ _
  by_cases h : (a, b) ∈ cells
  · simp [h]
  · simp [h]

theorem wellSized_live_grid (N : Nat) (cells : List (Nat × Nat)) :
    WellSized N (live_grid N cells) :=
  wellSized_grid_of N _

theorem live_grid_nil (N : Nat) : live_grid N [] = constant_grid N 0 := by
  rw [constant_grid_eq]
  apply grid_of_congr
  intro a _ b _
  simp

theorem wellSized_constant_grid (N : Nat) (v : Int) : WellSized N (constant_grid N v) := by
  rw [constant_grid_eq]
  exact wellSized_grid_of N _

theorem binary_constant_one (N : Nat) : Binary (constant_grid N 1) := by
  rw [constant_grid_eq]
  exact binary_grid_of N _ (fun _ _ _ _ => Or.inr rfl)

theorem next_cell_binary (N : Nat) (g : Grid) (i j : Nat) {old : Int}
    (h : old = 0 ∨ old = 1) :
    next_cell N g i j old = 0 ∨ next_cell N g i j old = 1 := by
  unfold next_cell
  split_ifs
  · exact Or.inl rfl
  · exact Or.inr rfl
  · exact h

theorem binary_next_grid (N : Nat) {g : Grid} (hb : Binary g) : Binary (next_grid N g) :=
  binary_grid_of N _ (fun a b _ _ => next_cell_binary N g a b (cell_binary hb a b))

theorem wellSized_next_grid (N : Nat) (g : Grid) : WellSized N (next_grid N g) :=
  wellSized_grid_of N _

theorem next_generation_parallel_perm {N : Nat} {g : Grid} (hg : WellSized N g)
    {order : List (Nat × Nat)} (ho : order.Perm (index_space N)) :
    next_generation_parallel N order g = some (next_grid N g) :=
  next_generation_parallel_eq hg (fun _ hp => mem_index_space.mp (ho.mem_iff.mp hp))
    (fun _ hp => ho.mem_iff.mpr hp)

theorem next_grid_dead (N : Nat) : next_grid N (constant_grid N 0) = constant_grid N 0 := by
  rw [← live_grid_nil]
  apply next_grid_live_grid
  intro a b _ _
  have hsum := neighbor_sum_live_grid N [] List.nodup_nil (by simp) a b
  unfold next_cell
  rw [hsum]
  simp [wrap32]

theorem next_grid_single (N r c : Nat) (hr : r < N) (hc : c < N) :
    next_grid N (live_grid N [(r, c)]) = constant_grid N 0 := by
  rw [← live_grid_nil]
  apply next_grid_live_grid
  intro a b ha hb
  have hcell : (live_grid N [(r, c)]).cell a b = if (a, b) ∈ [(r, c)] then 1 else 0 :=
    cell_grid_of N _ ha hb
  have hsum := neighbor_sum_live_grid N [(r, c)] (by simp) (by simp; omega) a b
  have hle := List.countP_le_length (fun p : Nat × Nat =>
    decide ((((p.1 : Int)) - a, (p.2 : Int) - b) ∈ offsets)) (l := [(r, c)])
  simp only [List.length_cons, List.length_nil] at hle
  unfold next_cell
  rw [hcell, hsum, wrap32_of_range (by omega) (by omega)]
  clear hle hsum hcell
  simp only [List.countP_cons, List.countP_nil, decide_eq_true_eq, mem_offsets, List.mem_cons,
    Prod.mk.injEq, List.mem_singleton, List.not_mem_nil, or_false]
  push_cast
  split_ifs <;> omega

theorem generations_sequential_dead (N n : Nat) :
    generations_sequential N n (constant_grid N 0) = some (constant_grid N 0) := by
  induction n with
  | zero => rfl
  | succ k ih =>
    rw [generations_sequential, next_generation_sequential_eq (wellSized_constant_grid N 0),
      next_grid_dead]
    exact ih

theorem generations_parallel_dead (N : Nat) (orders : List (List (Nat × Nat)))
    (h : ∀ o ∈ orders, o.Perm (index_space N)) :
    generations_parallel N orders (constant_grid N 0) = some (constant_grid N 0) := by
  induction orders with
  | nil => rfl
  | cons o t ih =>
    rw [generations_parallel,
      next_generation_parallel_perm (wellSized_constant_grid N 0) (h o (List.mem_cons_self _ _)),
      next_grid_dead]
    exact ih (fun q hq => h q (List.mem_cons_of_mem _ hq))

theorem generations_sequential_invariant (N n : Nat) (g : Grid) (hg : WellSized N g)
    (hb : Binary g) :
    ∃ g', generations_sequential N n g = some g' ∧ WellSized N g' ∧ Binary g' := by
  induction n generalizing g with
  | zero => exact ⟨g, rfl, hg, hb⟩
  | succ k ih =>
    rw [generations_sequential, next_generation_sequential_eq hg]
    exact ih _ (wellSized_next_grid N g) (binary_next_grid N hb)

theorem generations_parallel_invariant (N : Nat) (orders : List (List (Nat × Nat)))
    (h : ∀ o ∈ orders, o.Perm (index_space N)) (g : Grid) (hg : WellSized N g)
    (hb : Binary g) :
    ∃ g', generations_parallel N orders g = some g' ∧ WellSized N g' ∧ Binary g' := by
  induction orders generalizing g with
  | nil => exact ⟨g, rfl, hg, hb⟩
  | cons o t ih =>
    rw [generations_parallel, next_generation_parallel_perm hg (h o (List.mem_cons_self _ _))]
    exact ih (fun q hq => h q (List.mem_cons_of_mem _ hq)) _ (wellSized_next_grid N g)
      (binary_next_grid N hb)

/-! ## Single updates, locality and transposition -/

theorem parallel_body_wellSized {N : Nat} {g ng : Grid} (hg : WellSized N g)
    (hng : WellSized N ng) {i j : Nat} (hi : i < N) (hj : j < N) :
    parallel_body N g ng i j
      = some (grid_of N (fun a b =>
          if a = i ∧ b = j then next_cell N g i j (ng.cell i j) else ng.cell a b)) := by
  have h := parallel_body_grid_of hg ng.cell hi hj
  rw [grid_of_cell hng] at h
  exact h

theorem neighbor_term_congr {N : Nat} {g h : Grid} (x y : Nat) (a b : Int)
    (hagree : ∀ u v : Nat, u < N → v < N → |(u : Int) - x| ≤ 1 → |(v : Int) - y| ≤ 1 →
      g.cell u v = h.cell u v)
    (ha : -1 ≤ a ∧ a ≤ 1) (hb : -1 ≤ b ∧ b ≤ 1) :
    neighbor_term N g x y a b = neighbor_term N h x y a b := by
  unfold neighbor_term
  split
  · rename_i hgd
    apply hagree
    · omega
    · omega
    · rw [abs_le]; omega
    · rw [abs_le]; omega
  · rfl

theorem neighbor_sum_congr {N : Nat} {g h : Grid} (x y : Nat)
    (hagree : ∀ u v : Nat, u < N → v < N → |(u : Int) - x| ≤ 1 → |(v : Int) - y| ≤ 1 →
      g.cell u v = h.cell u v) :
    neighbor_sum N g x y = neighbor_sum N h x y := by
  unfold neighbor_sum
  rw [neighbor_term_congr x y (-1) (-1) hagree (by decide) (by decide),
    neighbor_term_congr x y (-1) 0 hagree (by decide) (by decide),
    neighbor_term_congr x y (-1) 1 hagree (by decide) (by decide),
    neighbor_term_congr x y 0 (-1) hagree (by decide) (by decide),
    neighbor_term_congr x y 0 1 hagree (by decide) (by decide),
    neighbor_term_congr x y 1 (-1) hagree (by decide) (by decide),
    neighbor_term_congr x y 1 0 hagree (by decide) (by decide),
    neighbor_term_congr x y 1 1 hagree (by decide) (by decide)]

theorem neighbor_term_transpose {N : Nat} (g : Grid) (x y a b : Int) :
    neighbor_term N (transpose N g) y x b a = neighbor_term N g x y a b := by
  rw [transpose, neighbor_term_grid_of]
  unfold neighbor_term
  by_cases h : 0 ≤ x + a ∧ x + a < (N : Int) ∧ 0 ≤ y + b ∧ y + b < (N : Int)
  · rw [if_pos h, if_pos ⟨h.2.2.1, h.2.2.2, h.1, h.2.1⟩]
  · rw [if_neg h, if_neg (fun hh => h ⟨hh.2.2.1, hh.2.2.2, hh.1, hh.2.1⟩)]

theorem neighbor_sum_transpose {N : Nat} (g : Grid) (x y : Int) :
    neighbor_sum N (transpose N g) y x = neighbor_sum N g x y := by
  unfold neighbor_sum
  simp only [neighbor_term_transpose]
  omega

theorem wellSized_transpose (N : Nat) (g : Grid) : WellSized N (transpose N g) :=
  wellSized_grid_of N _

theorem next_grid_transpose (N : Nat) (g : Grid) :
    next_grid N (transpose N g) = transpose N (next_grid N g) := by
  unfold next_grid
  conv_rhs => rw [transpose]
  apply grid_of_congr
  intro a ha b hb
  have hc : (transpose N g).cell a b = g.cell b a := cell_grid_of N _ ha hb
  rw [cell_grid_of N _ hb ha, hc]
  unfold next_cell
  rw [hc, neighbor_sum_transpose]

/-! ## The neighbour count as a sum of values -/

theorem adjacent_cells_eq (N : Nat) (x y : Int) :
    adjacent_cells N x y
      = ((offsets.filter (fun d => decide (0 ≤ x + d.1 ∧ x + d.1 < (N : Int) ∧ 0 ≤ y + d.2
            ∧ y + d.2 < (N : Int)))).map (fun d => (x + d.1, y + d.2))).toFinset := by
  ext ⟨a, b⟩
  simp only [adjacent_cells, Finset.mem_filter, Finset.mem_product, Finset.mem_Ico,
    List.mem_toFinset, List.mem_map, List.mem_filter, decide_eq_true_eq, Prod.mk.injEq,
    Prod.exists, abs_le, ne_eq]
  constructor
  · rintro ⟨⟨⟨h1, h2⟩, h3, h4⟩, h5, h6, h7⟩
    refine ⟨a - x, b - y, ⟨(mem_offsets _ _).mpr ?_, ?_⟩, by ring, by ring⟩
    · refine ⟨by omega, by omega, by omega, by omega, ?_⟩
      intro h
      exact h7 ⟨by omega, by omega⟩
    · have hx : x + (a - x) = a := by ring
      have hy : y + (b - y) = b := by ring
      rw [hx, hy]
      exact ⟨h1, h2, h3, h4⟩
  · rintro ⟨u, v, ⟨hm, h1, h2, h3, h4⟩, rfl, rfl⟩
    have := (mem_offsets _ _).mp hm
    refine ⟨⟨⟨h1, h2⟩, h3, h4⟩, ⟨by omega, by omega⟩, ⟨by omega, by omega⟩, ?_⟩
    intro h
    omega

theorem sum_map_filter_ite {α : Type} (l : List α) (Q : α → Prop) [DecidablePred Q]
    (f : α → Int) :
    ((l.filter (fun d => decide (Q d))).map f).sum
      = (l.map (fun d => if Q d then f d else 0)).sum := by
  induction l with
  | nil => simp
  | cons d t ih =>
    by_cases h : Q d
    · simp [List.filter_cons, h, ih]
    · simp [List.filter_cons, h, ih]

theorem adjacent_sum_eq {N : Nat} {g : Grid} (hg : WellSized N g) (x y : Int) :
    adjacent_sum N g x y = neighbor_sum N g x y := by
  unfold adjacent_sum
  rw [adjacent_cells_eq, List.sum_toFinset, List.map_map, sum_map_filter_ite, neighbor_sum_eq_sum]
  · congr 1
    apply List.map_congr_left
    intro d _
    unfold neighbor_term
    split
    · rename_i h
      simp only [Function.comp]
      rw [read_of_wellSized hg h.1 h.2.1 h.2.2.1 h.2.2.2]
      rfl
    · rfl
  · apply List.Nodup.map
    · intro d d' h
      simp only [Prod.mk.injEq] at h
      ext <;> omega
    · exact nodup_offsets.filter _

theorem neighbor_sum_constant_two_interior (N : Nat) (hN : 3 ≤ N) :
    neighbor_sum N (constant_grid N 2) ((1 : Nat) : Int) ((1 : Nat) : Int) = 16 := by
  simp only [neighbor_sum, constant_grid_eq, neighbor_term_grid_of]
  omega

theorem not_binary_constant_two (N : Nat) (hN : 0 < N) : ¬ Binary (constant_grid N 2) := by
  intro h
  have hc := cell_binary h 0 0
  rw [constant_grid_eq, cell_grid_of N _ hN hN] at hc
  omega

theorem next_cell_keep (N : Nat) (g : Grid) (i j : Nat) (h0 : g.cell i j ≠ 0)
    (h1 : g.cell i j ≠ 1) : next_cell N g i j (g.cell i j) = g.cell i j := by
  unfold next_cell
  rw [if_neg (fun h => h1 h.1), if_neg (fun h => h0 h.1)]

/-! ## The initialisation loop in closed form -/

theorem initialize_loop_eq (N : Nat) (rand : Nat → Int) (l : List (Nat × Nat))
    (hl : ∀ p ∈ l, p.1 < N ∧ p.2 < N) (k : Nat) (f : Nat → Nat → Int) :
    l.foldlM
        (fun (st : Grid × Nat) (ij : Nat × Nat) =>
          match st.1.write ij.1 ij.2 (Int.tmod (rand st.2) 2) with
          | some g => some (g, st.2 + 1)
          | none => none)
        (grid_of N f, k)
      = some (grid_of N (init_fun rand l k f), k + l.length) := by
  induction l generalizing k f with
  | nil => rfl
  | cons p t ih =>
    have hp := hl p (List.mem_cons_self _ _)
    rw [List.foldlM_cons]
    simp only [write_grid_of N f hp.1 hp.2]
    simp only [Option.bind_eq_bind, Option.some_bind]
    rw [ih (fun q hq => hl q (List.mem_cons_of_mem _ hq))]
    simp only [init_fun, List.length_cons]
    congr 2
    omega

theorem init_fun_binary (rand : Nat → Int) (hrand : ∀ k, 0 ≤ rand k) (l : List (Nat × Nat))
    (k : Nat) (f : Nat → Nat → Int) (a b : Nat)
    (h : (a, b) ∈ l ∨ f a b = 0 ∨ f a b = 1) :
    init_fun rand l k f a b = 0 ∨ init_fun rand l k f a b = 1 := by
  induction l generalizing k f with
  | nil =>
    rcases h with h | h
    · exact absurd h (List.not_mem_nil _)
    · exact h
  | cons p t ih =>
    simp only [init_fun]
    apply ih
    by_cases hab : a = p.1 ∧ b = p.2
    · right
      rw [if_pos hab]
      have h1 := Int.tmod_nonneg 2 (hrand k)
      have h2 := Int.tmod_lt_of_pos (rand k) (show (0 : Int) < 2 by decide)
      omega
    · rw [if_neg hab]
      rcases h with h | h
      · rcases List.mem_cons.mp h with e | e
        · exact absurd ⟨congrArg Prod.fst e, congrArg Prod.snd e⟩ hab
        · exact Or.inl e
      · exact Or.inr h

theorem init_fun_congr (rand : Nat → Int) (l : List (Nat × Nat)) (k : Nat)
    (f f' : Nat → Nat → Int) (a b : Nat) (h : (a, b) ∈ l ∨ f a b = f' a b) :
    init_fun rand l k f a b = init_fun rand l k f' a b := by
  induction l generalizing k f f' with
  | nil =>
    rcases h with h | h
    · exact absurd h (List.not_mem_nil _)
    · exact h
  | cons p t ih =>
    simp only [init_fun]
    apply ih
    by_cases hab : a = p.1 ∧ b = p.2
    · right
      rw [if_pos hab, if_pos hab]
    · rw [if_neg hab, if_neg hab]
      rcases h with h | h
      · rcases List.mem_cons.mp h with e | e
        · exact absurd ⟨congrArg Prod.fst e, congrArg Prod.snd e⟩ hab
        · exact Or.inl e
      · exact Or.inr h

theorem initialize_grid_eq {N : Nat} {g : Grid} (hg : WellSized N g)
    {order : List (Nat × Nat)} (hin : ∀ p ∈ order, p.1 < N ∧ p.2 < N) (rand : Nat → Int) :
    initialize_grid order rand g = some (grid_of N (init_fun rand order 0 g.cell)) := by
  unfold initialize_grid
  have h := initialize_loop_eq N rand order hin 0 g.cell
  rw [grid_of_cell hg] at h
  rw [h]
  rfl

/-! ## The claims -/

/-- C1: on a `GRID_SIZE` x `GRID_SIZE` grid of zeros and ones,
`next_generation_sequential` returns a grid whose cell `(i, j)` is 1 exactly
when the old cell is 1 with 2 or 3 live neighbours or the old cell is 0 with 3
live neighbours, and is 0 otherwise; the neighbour count is
`count_neighbors` of the original grid. -/
theorem C1_rule_table (g : Grid) (hg : WellSized GRID_SIZE g) (hb : Binary g) :
    ∃ g', next_generation_sequential GRID_SIZE g = some g' ∧
      ∀ i j : Nat, i < GRID_SIZE → j < GRID_SIZE →
        ∃ n old new, count_neighbors GRID_SIZE g i j = some n ∧
          g.read i j = some old ∧ g'.read i j = some new ∧
          (new = 1 ↔ (old = 1 ∧ (n = 2 ∨ n = 3)) ∨ (old = 0 ∧ n = 3)) ∧
          (¬((old = 1 ∧ (n = 2 ∨ n = 3)) ∨ (old = 0 ∧ n = 3)) → new = 0) := by
  refine ⟨next_grid GRID_SIZE g, next_generation_sequential_eq hg, ?_⟩
  intro i j hi hj
  refine ⟨neighbor_sum GRID_SIZE g i j, g.cell i j, next_cell GRID_SIZE g i j (g.cell i j),
    count_neighbors_binary hg hb i j, read_nat_of_wellSized hg hi hj,
    read_next_grid GRID_SIZE g hi hj, ?_⟩
  have hs := neighbor_sum_binary hb GRID_SIZE i j
  have hc := cell_binary hb i j
  unfold next_cell
  rw [wrap32_of_range (by omega) (by omega)]
  split_ifs <;> omega

/-- C2: on a `GRID_SIZE` x `GRID_SIZE` grid, `next_generation_parallel`, whatever
the order in which the workers' iterations take effect, and
`next_generation_sequential`, whatever its per-row delay, return the same grid. -/
theorem C2_parallel_eq_sequential (g : Grid) (hg : WellSized GRID_SIZE g)
    (order : List (Nat × Nat)) (horder : order.Perm (index_space GRID_SIZE)) :
    ∃ g', next_generation_parallel GRID_SIZE order g = some g' ∧
      next_generation_sequential GRID_SIZE g = some g' ∧
      ∀ delay : Nat,
        (next_generation_sequential_timed GRID_SIZE delay g).map Prod.fst = some g' := by
  refine ⟨next_grid GRID_SIZE g, next_generation_parallel_perm hg horder,
    next_generation_sequential_eq hg, ?_⟩
  intro delay
  rw [next_generation_sequential_timed_eq, next_generation_parallel_perm hg (List.Perm.refl _)]
  rfl

/-- C3: on a `GRID_SIZE` x `GRID_SIZE` grid of zeros and ones, `count_neighbors`
at an in-bounds cell `(x, y)` returns the number of cells `(a, b)` of the grid
with `|a - x| ≤ 1`, `|b - y| ≤ 1`, `(a, b) ≠ (x, y)` and `g[a][b] = 1`. -/
theorem C3_count_is_live_adjacent (g : Grid) (hg : WellSized GRID_SIZE g) (hb : Binary g) :
    ∀ x y : Nat, x < GRID_SIZE → y < GRID_SIZE →
      count_neighbors GRID_SIZE g x y
        = some ((live_adjacent_cells GRID_SIZE g x y).card : Int) := by
  intro x y _ _
  rw [count_neighbors_binary hg hb, card_live_adjacent_cells hg hb]

/-- C4: on a `GRID_SIZE` x `GRID_SIZE` grid of zeros and ones, `count_neighbors`
returns a value between 0 and 8 at every in-bounds cell. -/
theorem C4_count_range (g : Grid) (hg : WellSized GRID_SIZE g) (hb : Binary g) :
    ∀ x y : Nat, x < GRID_SIZE → y < GRID_SIZE →
      ∃ n, count_neighbors GRID_SIZE g x y = some n ∧ 0 ≤ n ∧ n ≤ 8 :=
  fun x y _ _ => ⟨neighbor_sum GRID_SIZE g x y, count_neighbors_binary hg hb x y,
    neighbor_sum_binary hb GRID_SIZE x y⟩

/-- C5: on a `GRID_SIZE` x `GRID_SIZE` grid no access of `count_neighbors` at an
in-bounds cell, of `next_generation_sequential` or of
`next_generation_parallel` falls outside the vectors: the `Option`-returning
accesses never give `none`. -/
theorem C5_accesses_in_bounds (g : Grid) (hg : WellSized GRID_SIZE g) :
    (∀ x y : Nat, x < GRID_SIZE → y < GRID_SIZE →
        (count_neighbors GRID_SIZE g x y).isSome = true) ∧
      (next_generation_sequential GRID_SIZE g).isSome = true ∧
      ∀ order : List (Nat × Nat), order.Perm (index_space GRID_SIZE) →
        (next_generation_parallel GRID_SIZE order g).isSome = true := by
  refine ⟨fun x y _ _ => ?_, ?_, fun order ho => ?_⟩
  · rw [count_neighbors_eq hg]; rfl
  · rw [next_generation_sequential_eq hg]; rfl
  · rw [next_generation_parallel_perm hg ho]; rfl

/-- C6: on a `GRID_SIZE` x `GRID_SIZE` grid of zeros and ones, `count_neighbors`
returns at most 3 at a corner and at most 5 on the border; on the all-alive
grid it returns exactly 3 at a corner, 5 at another border cell and 8 in the
interior. -/
theorem C6_border_counts (g : Grid) (hg : WellSized GRID_SIZE g) (hb : Binary g) :
    ∀ x y : Nat, x < GRID_SIZE → y < GRID_SIZE →
      (∃ n, count_neighbors GRID_SIZE g x y = some n ∧
        ((x = 0 ∨ x = GRID_SIZE - 1) ∧ (y = 0 ∨ y = GRID_SIZE - 1) → n ≤ 3) ∧
        (x = 0 ∨ x = GRID_SIZE - 1 ∨ y = 0 ∨ y = GRID_SIZE - 1 → n ≤ 5)) ∧
      count_neighbors GRID_SIZE (constant_grid GRID_SIZE 1) x y
        = some (if (x = 0 ∨ x = GRID_SIZE - 1) ∧ (y = 0 ∨ y = GRID_SIZE - 1) then 3
            else if x = 0 ∨ x = GRID_SIZE - 1 ∨ y = 0 ∨ y = GRID_SIZE - 1 then 5 else 8) := by
  intro x y hx hy
  refine ⟨⟨neighbor_sum GRID_SIZE g x y, count_neighbors_binary hg hb x y,
    neighbor_sum_border hb GRID_SIZE x y hx hy⟩, ?_⟩
  rw [count_neighbors_binary (wellSized_constant_grid GRID_SIZE 1) (binary_constant_one GRID_SIZE),
    neighbor_sum_constant_one GRID_SIZE (by decide) x y hx hy]

/-- C7: the all-dead `GRID_SIZE` x `GRID_SIZE` grid is left all-dead by `n`
sequential generations, for every `n`, and by any number of parallel
generations, whatever the execution order of each parallel pass. -/
theorem C7_all_dead_stable (n : Nat) (orders : List (List (Nat × Nat)))
    (horders : ∀ o ∈ orders, o.Perm (index_space GRID_SIZE)) :
    generations_sequential GRID_SIZE n (constant_grid GRID_SIZE 0)
        = some (constant_grid GRID_SIZE 0) ∧
      generations_parallel GRID_SIZE orders (constant_grid GRID_SIZE 0)
        = some (constant_grid GRID_SIZE 0) :=
  ⟨generations_sequential_dead GRID_SIZE n, generations_parallel_dead GRID_SIZE orders horders⟩

/-- C8: a row blinker centred at `(r, c)`, away from the border, becomes the
column blinker after one generation and the row blinker again after a second
one, sequentially and in parallel; so does the 5 x 5 scenario of the
specification. -/
theorem C8_blinker (r c : Nat) (hr1 : 1 ≤ r) (hr2 : r ≤ GRID_SIZE - 2) (hc1 : 1 ≤ c)
    (hc2 : c ≤ GRID_SIZE - 2) :
    next_generation_sequential GRID_SIZE (live_grid GRID_SIZE [(r, c - 1), (r, c), (r, c + 1)])
        = some (live_grid GRID_SIZE [(r - 1, c), (r, c), (r + 1, c)]) ∧
      next_generation_sequential GRID_SIZE (live_grid GRID_SIZE [(r - 1, c), (r, c), (r + 1, c)])
        = some (live_grid GRID_SIZE [(r, c - 1), (r, c), (r, c + 1)]) ∧
      (∀ order : List (Nat × Nat), order.Perm (index_space GRID_SIZE) →
        next_generation_parallel GRID_SIZE order
            (live_grid GRID_SIZE [(r, c - 1), (r, c), (r, c + 1)])
          = some (live_grid GRID_SIZE [(r - 1, c), (r, c), (r + 1, c)]) ∧
        next_generation_parallel GRID_SIZE order
            (live_grid GRID_SIZE [(r - 1, c), (r, c), (r + 1, c)])
          = some (live_grid GRID_SIZE [(r, c - 1), (r, c), (r, c + 1)])) ∧
      next_generation_sequential 5
          [[0, 0, 0, 0, 0], [0, 0, 0, 0, 0], [0, 1, 1, 1, 0], [0, 0, 0, 0, 0], [0, 0, 0, 0, 0]]
        = some
          [[0, 0, 0, 0, 0], [0, 0, 1, 0, 0], [0, 0, 1, 0, 0], [0, 0, 1, 0, 0], [0, 0, 0, 0, 0]] ∧
      next_generation_sequential 5
          [[0, 0, 0, 0, 0], [0, 0, 1, 0, 0], [0, 0, 1, 0, 0], [0, 0, 1, 0, 0], [0, 0, 0, 0, 0]]
        = some
          [[0, 0, 0, 0, 0], [0, 0, 0, 0, 0], [0, 1, 1, 1, 0], [0, 0, 0, 0, 0], [0, 0, 0, 0, 0]] := by
  have hN : GRID_SIZE = 50 := rfl
  have hrow := next_grid_row_blinker GRID_SIZE r c hr1 (by omega) hc1 (by omega)
  have hcol := next_grid_col_blinker GRID_SIZE r c hr1 (by omega) hc1 (by omega)
  refine ⟨?_, ?_, fun order ho => ⟨?_, ?_⟩, by decide, by decide⟩
  · rw [next_generation_sequential_eq (wellSized_live_grid _ _), hrow]
  · rw [next_generation_sequential_eq (wellSized_live_grid _ _), hcol]
  · rw [next_generation_parallel_perm (wellSized_live_grid _ _) ho, hrow]
  · rw [next_generation_parallel_perm (wellSized_live_grid _ _) ho, hcol]

/-- C9: the grid whose only live cell is the in-bounds cell `(r, c)`, border and
corners included, becomes the all-dead grid after one generation, sequential
or parallel. -/
theorem C9_isolated_cell_dies (r c : Nat) (hr : r < GRID_SIZE) (hc : c < GRID_SIZE) :
    next_generation_sequential GRID_SIZE (live_grid GRID_SIZE [(r, c)])
        = some (constant_grid GRID_SIZE 0) ∧
      ∀ order : List (Nat × Nat), order.Perm (index_space GRID_SIZE) →
        next_generation_parallel GRID_SIZE order (live_grid GRID_SIZE [(r, c)])
          = some (constant_grid GRID_SIZE 0) := by
  refine ⟨?_, fun order ho => ?_⟩
  · rw [next_generation_sequential_eq (wellSized_live_grid _ _), next_grid_single _ _ _ hr hc]
  · rw [next_generation_parallel_perm (wellSized_live_grid _ _) ho, next_grid_single _ _ _ hr hc]

/-- C10: a `GRID_SIZE` x `GRID_SIZE` grid of zeros and ones is turned into a
`GRID_SIZE` x `GRID_SIZE` grid of zeros and ones by
`next_generation_sequential`, by `next_generation_parallel`, and by any number
of generations of either. -/
theorem C10_grid_invariant (g : Grid) (hg : WellSized GRID_SIZE g) (hb : Binary g) :
    (∃ g', next_generation_sequential GRID_SIZE g = some g' ∧
        WellSized GRID_SIZE g' ∧ Binary g') ∧
      (∀ order : List (Nat × Nat), order.Perm (index_space GRID_SIZE) →
        ∃ g', next_generation_parallel GRID_SIZE order g = some g' ∧
          WellSized GRID_SIZE g' ∧ Binary g') ∧
      (∀ n : Nat, ∃ g', generations_sequential GRID_SIZE n g = some g' ∧
        WellSized GRID_SIZE g' ∧ Binary g') ∧
      (∀ orders : List (List (Nat × Nat)),
        (∀ o ∈ orders, o.Perm (index_space GRID_SIZE)) →
        ∃ g', generations_parallel GRID_SIZE orders g = some g' ∧
          WellSized GRID_SIZE g' ∧ Binary g') :=
  ⟨⟨next_grid GRID_SIZE g, next_generation_sequential_eq hg, wellSized_next_grid _ _,
      binary_next_grid _ hb⟩,
    fun _ ho => ⟨next_grid GRID_SIZE g, next_generation_parallel_perm hg ho,
      wellSized_next_grid _ _, binary_next_grid _ hb⟩,
    fun n => generations_sequential_invariant GRID_SIZE n g hg hb,
    fun orders ho => generations_parallel_invariant GRID_SIZE orders ho g hg hb⟩


/-- C11: on a `GRID_SIZE` x `GRID_SIZE` grid, applying the per-cell update of
`next_generation_parallel` in the order of any permutation of the index space
gives the same new grid as the row-major order; each update leaves every cell
of `new_grid` other than its own unchanged. -/
theorem C11_order_independent (g : Grid) (hg : WellSized GRID_SIZE g)
    (order : List (Nat × Nat)) (horder : order.Perm (index_space GRID_SIZE)) :
    (∃ g', next_generation_parallel GRID_SIZE order g = some g' ∧
        next_generation_parallel GRID_SIZE (index_space GRID_SIZE) g = some g') ∧
      ∀ new_grid : Grid, WellSized GRID_SIZE new_grid →
        ∀ i j : Nat, i < GRID_SIZE → j < GRID_SIZE →
          ∃ new_grid', parallel_body GRID_SIZE g new_grid i j = some new_grid' ∧
            ∀ a b : Nat, a < GRID_SIZE → b < GRID_SIZE → ¬ (a = i ∧ b = j) →
              new_grid'.read a b = new_grid.read a b := by
  refine ⟨⟨next_grid GRID_SIZE g, next_generation_parallel_perm hg horder,
    next_generation_parallel_perm hg (List.Perm.refl _)⟩, ?_⟩
  intro ng hng i j hi hj
  refine ⟨_, parallel_body_wellSized hg hng hi hj, ?_⟩
  intro a b ha hb hab
  rw [read_grid_of GRID_SIZE _ ha hb, if_neg hab, read_nat_of_wellSized hng ha hb]

/-- C12: on a `GRID_SIZE` x `GRID_SIZE` grid, whatever its contents, whatever
the order of the iterations and whatever non-negative values `rand()` returns,
`initialize_grid` returns a `GRID_SIZE` x `GRID_SIZE` grid of zeros and ones,
the same one from every previous contents. -/
theorem C12_initialize_grid (g : Grid) (hg : WellSized GRID_SIZE g)
    (order : List (Nat × Nat)) (horder : order.Perm (index_space GRID_SIZE))
    (rand : Nat → Int) (hrand : ∀ k, 0 ≤ rand k) :
    ∃ g', initialize_grid order rand g = some g' ∧ WellSized GRID_SIZE g' ∧ Binary g' ∧
      ∀ h : Grid, WellSized GRID_SIZE h → initialize_grid order rand h = some g' := by
  have hin : ∀ p ∈ order, p.1 < GRID_SIZE ∧ p.2 < GRID_SIZE :=
    fun _ hp => mem_index_space.mp (horder.mem_iff.mp hp)
  have hall : ∀ a b : Nat, a < GRID_SIZE → b < GRID_SIZE → (a, b) ∈ order :=
    fun a b ha hb => horder.mem_iff.mpr (mem_index_space.mpr ⟨ha, hb⟩)
  refine ⟨_, initialize_grid_eq hg hin rand, wellSized_grid_of _ _, ?_, ?_⟩
  · exact binary_grid_of _ _
      (fun a b ha hb => init_fun_binary rand hrand order 0 _ a b (Or.inl (hall a b ha hb)))
  · intro h hh
    rw [initialize_grid_eq hh hin rand]
    congr 1
    exact grid_of_congr
      (fun a ha b hb => init_fun_congr rand order 0 _ _ a b (Or.inl (hall a b ha hb)))

/-- C13: on a `GRID_SIZE` x `GRID_SIZE` grid, `count_neighbors` of the transposed
grid at `(y, x)` is `count_neighbors` of the grid at `(x, y)`, and
`next_generation_sequential` of the transposed grid is the transpose of
`next_generation_sequential` of the grid. -/
theorem C13_transpose_symmetry (g : Grid) (hg : WellSized GRID_SIZE g) :
    (∀ x y : Nat, x < GRID_SIZE → y < GRID_SIZE →
        ∃ n, count_neighbors GRID_SIZE g x y = some n ∧
          count_neighbors GRID_SIZE (transpose GRID_SIZE g) y x = some n) ∧
      ∃ g', next_generation_sequential GRID_SIZE g = some g' ∧
        next_generation_sequential GRID_SIZE (transpose GRID_SIZE g)
          = some (transpose GRID_SIZE g') := by
  refine ⟨fun x y _ _ => ⟨_, count_neighbors_eq hg x y, ?_⟩,
    next_grid GRID_SIZE g, next_generation_sequential_eq hg, ?_⟩
  · rw [count_neighbors_eq (wellSized_transpose _ _), neighbor_sum_transpose]
  · rw [next_generation_sequential_eq (wellSized_transpose _ _), next_grid_transpose]

/-- C14: two `GRID_SIZE` x `GRID_SIZE` grids that agree on the in-bounds cell
`(i, j)` and on the in-bounds cells adjacent to it are left by
`next_generation_sequential` with the same value at `(i, j)`. -/
theorem C14_locality (g h : Grid) (hg : WellSized GRID_SIZE g) (hh : WellSized GRID_SIZE h)
    (i j : Nat) (hi : i < GRID_SIZE) (hj : j < GRID_SIZE)
    (hagree : ∀ a b : Nat, a < GRID_SIZE → b < GRID_SIZE →
      |(a : Int) - i| ≤ 1 → |(b : Int) - j| ≤ 1 → g.read a b = h.read a b) :
    ∃ g' h', next_generation_sequential GRID_SIZE g = some g' ∧
      next_generation_sequential GRID_SIZE h = some h' ∧ g'.read i j = h'.read i j := by
  have hcell : ∀ u v : Nat, u < GRID_SIZE → v < GRID_SIZE →
      |(u : Int) - i| ≤ 1 → |(v : Int) - j| ≤ 1 → g.cell u v = h.cell u v := by
    intro u v hu hv h1 h2
    have e := hagree u v hu hv h1 h2
    rw [read_nat_of_wellSized hg hu hv, read_nat_of_wellSized hh hu hv] at e
    exact Option.some.inj e
  refine ⟨next_grid GRID_SIZE g, next_grid GRID_SIZE h, next_generation_sequential_eq hg,
    next_generation_sequential_eq hh, ?_⟩
  rw [read_next_grid _ _ hi hj, read_next_grid _ _ hi hj]
  unfold next_cell
  rw [neighbor_sum_congr i j hcell, hcell i j hi hj (by simp) (by simp)]

/-- C15: on a `GRID_SIZE` x `GRID_SIZE` grid `count_neighbors` returns the sum, as
a 32-bit `int`, of the values stored in the in-bounds adjacent cells; on the
grid whose cells are all 2 it returns 16 at `(1, 1)`; and
`next_generation_sequential` leaves unchanged every cell whose value is
neither 0 nor 1. -/
theorem C15_sum_of_values (g : Grid) (hg : WellSized GRID_SIZE g) :
    (∀ x y : Nat, x < GRID_SIZE → y < GRID_SIZE →
        count_neighbors GRID_SIZE g x y = some (wrap32 (adjacent_sum GRID_SIZE g x y)) ∧
        (-2147483648 ≤ adjacent_sum GRID_SIZE g x y ∧ adjacent_sum GRID_SIZE g x y < 2147483648 →
          count_neighbors GRID_SIZE g x y = some (adjacent_sum GRID_SIZE g x y))) ∧
      (WellSized GRID_SIZE (constant_grid GRID_SIZE 2) ∧ ¬ Binary (constant_grid GRID_SIZE 2) ∧
        count_neighbors GRID_SIZE (constant_grid GRID_SIZE 2) ((1 : Nat) : Int) ((1 : Nat) : Int)
          = some 16) ∧
      ∃ g', next_generation_sequential GRID_SIZE g = some g' ∧
        ∀ i j : Nat, i < GRID_SIZE → j < GRID_SIZE →
          ∀ v : Int, g.read i j = some v → v ≠ 0 → v ≠ 1 → g'.read i j = some v := by
  refine ⟨fun x y _ _ => ⟨?_, fun hr => ?_⟩, ⟨wellSized_constant_grid _ _,
    not_binary_constant_two _ (by decide), ?_⟩, next_grid GRID_SIZE g,
    next_generation_sequential_eq hg, ?_⟩
  · rw [count_neighbors_eq hg, adjacent_sum_eq hg]
  · rw [count_neighbors_eq hg, ← adjacent_sum_eq hg, wrap32_of_range hr.1 hr.2]
  · rw [count_neighbors_eq (wellSized_constant_grid _ _),
      neighbor_sum_constant_two_interior _ (by decide)]
    rfl
  · intro i j hi hj v hv h0 h1
    rw [read_nat_of_wellSized hg hi hj] at hv
    have e : g.cell i j = v := Option.some.inj hv
    rw [read_next_grid _ _ hi hj, next_cell_keep _ _ _ _ (e ▸ h0) (e ▸ h1), e]

/-! ## Worked instances -/

theorem C1_rule_table_witness :
    WellSized GRID_SIZE example_grid ∧ Binary example_grid ∧
      ∃ g', next_generation_sequential GRID_SIZE example_grid = some g' ∧
        ∀ i j : Nat, i < GRID_SIZE → j < GRID_SIZE →
          ∃ n old new, count_neighbors GRID_SIZE example_grid i j = some n ∧
            example_grid.read i j = some old ∧ g'.read i j = some new ∧
            (new = 1 ↔ (old = 1 ∧ (n = 2 ∨ n = 3)) ∨ (old = 0 ∧ n = 3)) ∧
            (¬((old = 1 ∧ (n = 2 ∨ n = 3)) ∨ (old = 0 ∧ n = 3)) → new = 0) :=
  ⟨wellSized_live_grid _ _, binary_live_grid _ _,
    C1_rule_table example_grid (wellSized_live_grid _ _) (binary_live_grid _ _)⟩

theorem C2_parallel_eq_sequential_witness :
    WellSized GRID_SIZE example_grid ∧
      ((index_space GRID_SIZE).reverse).Perm (index_space GRID_SIZE) ∧
      ∃ g', next_generation_parallel GRID_SIZE (index_space GRID_SIZE).reverse example_grid
            = some g' ∧
        next_generation_sequential GRID_SIZE example_grid = some g' ∧
        ∀ delay : Nat,
          (next_generation_sequential_timed GRID_SIZE delay example_grid).map Prod.fst
            = some g' :=
  ⟨wellSized_live_grid _ _, List.reverse_perm _,
    C2_parallel_eq_sequential example_grid (wellSized_live_grid _ _) _ (List.reverse_perm _)⟩

theorem C3_count_is_live_adjacent_witness :
    WellSized GRID_SIZE example_grid ∧ Binary example_grid ∧
      count_neighbors GRID_SIZE example_grid ((1 : Nat) : Int) ((2 : Nat) : Int)
        = some ((live_adjacent_cells GRID_SIZE example_grid ((1 : Nat) : Int)
            ((2 : Nat) : Int)).card : Int) :=
  ⟨wellSized_live_grid _ _, binary_live_grid _ _,
    C3_count_is_live_adjacent example_grid (wellSized_live_grid _ _) (binary_live_grid _ _)
      1 2 (by decide) (by decide)⟩

theorem C4_count_range_witness :
    WellSized GRID_SIZE example_grid ∧ Binary example_grid ∧
      ∃ n, count_neighbors GRID_SIZE example_grid ((1 : Nat) : Int) ((2 : Nat) : Int) = some n ∧
        0 ≤ n ∧ n ≤ 8 :=
  ⟨wellSized_live_grid _ _, binary_live_grid _ _,
    C4_count_range example_grid (wellSized_live_grid _ _) (binary_live_grid _ _)
      1 2 (by decide) (by decide)⟩

theorem C5_accesses_in_bounds_witness :
    WellSized GRID_SIZE example_grid ∧
      (∀ x y : Nat, x < GRID_SIZE → y < GRID_SIZE →
        (count_neighbors GRID_SIZE example_grid x y).isSome = true) ∧
      (next_generation_sequential GRID_SIZE example_grid).isSome = true ∧
      ∀ order : List (Nat × Nat), order.Perm (index_space GRID_SIZE) →
        (next_generation_parallel GRID_SIZE order example_grid).isSome = true :=
  ⟨wellSized_live_grid _ _, C5_accesses_in_bounds example_grid (wellSized_live_grid _ _)⟩

theorem C6_border_counts_witness :
    WellSized GRID_SIZE example_grid ∧ Binary example_grid ∧
      ∃ n, count_neighbors GRID_SIZE example_grid ((0 : Nat) : Int) ((49 : Nat) : Int) = some n ∧
        n ≤ 3 :=
  ⟨wellSized_live_grid _ _, binary_live_grid _ _,
    (C6_border_counts example_grid (wellSized_live_grid _ _) (binary_live_grid _ _)
      0 49 (by decide) (by decide)).1.imp
      (fun _ h => ⟨h.1, h.2.1 ⟨Or.inl rfl, Or.inr rfl⟩⟩)⟩

theorem C7_all_dead_stable_witness :
    (∀ o ∈ [index_space GRID_SIZE, (index_space GRID_SIZE).reverse],
        o.Perm (index_space GRID_SIZE)) ∧
      generations_sequential GRID_SIZE 3 (constant_grid GRID_SIZE 0)
        = some (constant_grid GRID_SIZE 0) ∧
      generations_parallel GRID_SIZE [index_space GRID_SIZE, (index_space GRID_SIZE).reverse]
          (constant_grid GRID_SIZE 0)
        = some (constant_grid GRID_SIZE 0) :=
  have h : ∀ o ∈ [index_space GRID_SIZE, (index_space GRID_SIZE).reverse],
      o.Perm (index_space GRID_SIZE) := by
    intro o ho
    simp only [List.mem_cons, List.mem_singleton, List.not_mem_nil, or_false] at ho
    rcases ho with h1 | h1
    · rw [h1]
    · rw [h1]; exact List.reverse_perm _
  ⟨h, C7_all_dead_stable 3 _ h⟩

theorem C8_blinker_witness :
    1 ≤ 2 ∧ 2 ≤ GRID_SIZE - 2 ∧
      next_generation_sequential GRID_SIZE example_grid
        = some (live_grid GRID_SIZE [(1, 2), (2, 2), (3, 2)]) ∧
      next_generation_sequential GRID_SIZE (live_grid GRID_SIZE [(1, 2), (2, 2), (3, 2)])
        = some example_grid :=
  ⟨by decide, by decide,
    (C8_blinker 2 2 (by decide) (by decide) (by decide) (by decide)).1,
    (C8_blinker 2 2 (by decide) (by decide) (by decide) (by decide)).2.1⟩

theorem C9_isolated_cell_dies_witness :
    0 < GRID_SIZE ∧
      next_generation_sequential GRID_SIZE (live_grid GRID_SIZE [(0, 0)])
        = some (constant_grid GRID_SIZE 0) :=
  ⟨by decide, (C9_isolated_cell_dies 0 0 (by decide) (by decide)).1⟩

theorem C10_grid_invariant_witness :
    WellSized GRID_SIZE example_grid ∧ Binary example_grid ∧
      ∃ g', generations_sequential GRID_SIZE 4 example_grid = some g' ∧
        WellSized GRID_SIZE g' ∧ Binary g' :=
  ⟨wellSized_live_grid _ _, binary_live_grid _ _,
    (C10_grid_invariant example_grid (wellSized_live_grid _ _) (binary_live_grid _ _)).2.2.1 4⟩

theorem C11_order_independent_witness :
    WellSized GRID_SIZE example_grid ∧
      ((index_space GRID_SIZE).reverse).Perm (index_space GRID_SIZE) ∧
      ∃ g', next_generation_parallel GRID_SIZE (index_space GRID_SIZE).reverse example_grid
            = some g' ∧
        next_generation_parallel GRID_SIZE (index_space GRID_SIZE) example_grid = some g' :=
  ⟨wellSized_live_grid _ _, List.reverse_perm _,
    (C11_order_independent example_grid (wellSized_live_grid _ _) _ (List.reverse_perm _)).1⟩

theorem C12_initialize_grid_witness :
    WellSized GRID_SIZE example_grid ∧
      ((index_space GRID_SIZE).reverse).Perm (index_space GRID_SIZE) ∧
      (∀ k : Nat, 0 ≤ (fun n : Nat => (n : Int)) k) ∧
      ∃ g', initialize_grid (index_space GRID_SIZE).reverse (fun n : Nat => (n : Int))
            example_grid = some g' ∧
        WellSized GRID_SIZE g' ∧ Binary g' ∧
        ∀ h : Grid, WellSized GRID_SIZE h →
          initialize_grid (index_space GRID_SIZE).reverse (fun n : Nat => (n : Int)) h
            = some g' :=
  ⟨wellSized_live_grid _ _, List.reverse_perm _, fun k => Int.ofNat_nonneg k,
    C12_initialize_grid example_grid (wellSized_live_grid _ _) _ (List.reverse_perm _)
      (fun n : Nat => (n : Int)) (fun k => Int.ofNat_nonneg k)⟩

theorem C13_transpose_symmetry_witness :
    WellSized GRID_SIZE example_grid ∧
      ∃ g', next_generation_sequential GRID_SIZE example_grid = some g' ∧
        next_generation_sequential GRID_SIZE (transpose GRID_SIZE example_grid)
          = some (transpose GRID_SIZE g') :=
  ⟨wellSized_live_grid _ _, (C13_transpose_symmetry example_grid (wellSized_live_grid _ _)).2⟩

theorem C14_locality_witness :
    WellSized GRID_SIZE example_grid ∧
      WellSized GRID_SIZE (live_grid GRID_SIZE [(2, 1), (2, 2), (2, 3), (10, 10)]) ∧
      2 < GRID_SIZE ∧
      (∀ a b : Nat, a < GRID_SIZE → b < GRID_SIZE →
        |(a : Int) - (2 : Nat)| ≤ 1 → |(b : Int) - (2 : Nat)| ≤ 1 →
        example_grid.read a b
          = (live_grid GRID_SIZE [(2, 1), (2, 2), (2, 3), (10, 10)]).read a b) ∧
      ∃ g' h', next_generation_sequential GRID_SIZE example_grid = some g' ∧
        next_generation_sequential GRID_SIZE
            (live_grid GRID_SIZE [(2, 1), (2, 2), (2, 3), (10, 10)]) = some h' ∧
        g'.read (2 : Nat) (2 : Nat) = h'.read (2 : Nat) (2 : Nat) :=
  have hagree : ∀ a b : Nat, a < GRID_SIZE → b < GRID_SIZE →
      |(a : Int) - (2 : Nat)| ≤ 1 → |(b : Int) - (2 : Nat)| ≤ 1 →
      example_grid.read a b
        = (live_grid GRID_SIZE [(2, 1), (2, 2), (2, 3), (10, 10)]).read a b := by
    intro a b ha hb h1 _
    have hne : ¬ (a = 10 ∧ b = 10) := by
      rw [abs_le] at h1
      omega
    rw [example_grid, live_grid, live_grid, read_grid_of _ _ ha hb, read_grid_of _ _ ha hb]
    simp [hne]
  ⟨wellSized_live_grid _ _, wellSized_live_grid _ _, by decide, hagree,
    C14_locality example_grid _ (wellSized_live_grid _ _) (wellSized_live_grid _ _) 2 2
      (by decide) (by decide) hagree⟩

theorem C15_sum_of_values_witness :
    WellSized GRID_SIZE (constant_grid GRID_SIZE 2) ∧
      ∃ g', next_generation_sequential GRID_SIZE (constant_grid GRID_SIZE 2) = some g' ∧
        ∀ i j : Nat, i < GRID_SIZE → j < GRID_SIZE →
          ∀ v : Int, (constant_grid GRID_SIZE 2).read i j = some v → v ≠ 0 → v ≠ 1 →
            g'.read i j = some v :=
  ⟨wellSized_constant_grid _ _,
    (C15_sum_of_values (constant_grid GRID_SIZE 2) (wellSized_constant_grid _ _)).2.2⟩

end GameOfLife
